import Mathlib

/-!
Verification of the DonutSMP auto-payment Discord bot (src/bot.py, src/gambling.py).

The Python sources are shallowly embedded: strings are lists of characters,
Python floats are idealized as rationals, Python dicts (which preserve insertion
order) are association lists, the mutable cog/bot objects become explicit state
records, and each relevant method becomes a pure state-transition function.
Filesystem effects (the command files and the durable gambling_data.json store)
are part of the state records.
-/

namespace DonutBot

/-- Strings are modelled as lists of characters (`String.data`). -/
abbrev Str := List Char

/-! ## Character classes (ASCII model of Python's predicates) -/

/-- ASCII decimal digit; models Python `str.isdigit` / regex `[0-9]` on the
ASCII inputs that occur in this program. -/
def isDigitC (c : Char) : Bool := decide (48 ≤ c.toNat ∧ c.toNat ≤ 57)

/-- ASCII whitespace stripped by Python `str.strip()`. -/
def isSpaceChar (c : Char) : Bool :=
  decide (c.toNat = 32 ∨ c.toNat = 9 ∨ c.toNat = 10 ∨ c.toNat = 13 ∨
          c.toNat = 11 ∨ c.toNat = 12)

/-- ASCII model of regex `\w` (the usernames in scope are ASCII). -/
def isWordC (c : Char) : Bool :=
  decide ((48 ≤ c.toNat ∧ c.toNat ≤ 57) ∨ (65 ≤ c.toNat ∧ c.toNat ≤ 90) ∨
          (97 ≤ c.toNat ∧ c.toNat ≤ 122) ∨ c.toNat = 95)

/-- Regex class `[0-9,.]` from the payment pattern. -/
def isAmtChar (c : Char) : Bool := isDigitC c || c == ',' || c == '.'

/-- Regex class `[KMBT]` from the payment pattern. -/
def isSuffixChar (c : Char) : Bool := c == 'K' || c == 'M' || c == 'B' || c == 'T'

/-- ASCII model of Python `str.upper` on a single character. -/
def upChar (c : Char) : Char :=
  if 97 ≤ c.toNat ∧ c.toNat ≤ 122 then Char.ofNat (c.toNat - 32) else c

/-- Python `str.upper()`. -/
def upStr (s : Str) : Str := s.map upChar

/-- Python `str.strip()` (both ends). -/
def pyStrip (s : Str) : Str :=
  ((s.dropWhile isSpaceChar).reverse.dropWhile isSpaceChar).reverse

/-- Python `str.replace(',', '')`. -/
def stripCommas (s : Str) : Str := s.filter (fun c => decide (c ≠ ','))

/-! ## Decimal literals and the model of Python `float()` -/

/-- An unsigned simple decimal literal: digits and at most one decimal point,
with at least one digit (`"5"`, `"1.5"`, `".5"`, `"5."`). -/
def isDecLit (s : Str) : Bool :=
  s.all (fun c => isDigitC c || c == '.') && decide (s.count '.' ≤ 1) && s.any isDigitC

/-- Numeric value of a digit string read in base 10. -/
def digitsVal (s : Str) : ℕ := s.foldl (fun a c => 10 * a + (c.toNat - 48)) 0

/-- Number of characters after the (first) decimal point. -/
def fracLen (s : Str) : ℕ := ((s.dropWhile (fun c => decide (c ≠ '.'))).drop 1).length

/-- Exact value of an unsigned simple decimal literal: all its digits read as
one integer, divided by ten to the number of fractional digits. -/
def decVal (s : Str) : ℚ :=
  (digitsVal (s.filter (fun c => decide (c ≠ '.'))) : ℚ) / 10 ^ fracLen s

/-- Models CPython `float(s)`, idealized over ℚ and restricted to optionally
signed simple decimal literals (after stripping surrounding whitespace, as
`float` does).  These are the only shapes producible by the program's amount
regex `[0-9,.]+[KMBT]?` and by the claims' "valid amount strings"; exponent,
infinity, nan and underscore forms are not modelled and yield `none`.
`none` models a raised `ValueError`. -/
def pyFloat? (s : Str) : Option ℚ :=
  match pyStrip s with
  | [] => none
  | c :: r =>
    if c = '-' then (if isDecLit r then some (-(decVal r)) else none)
    else if c = '+' then (if isDecLit r then some (decVal r) else none)
    else if isDecLit (c :: r) then some (decVal (c :: r)) else none

/-! ## The four amount parsers of the program -/

/-- `bot.py` module-level `parse_amount` (lines 30-67).  `none` models the
source's `return None`.  Two raising corner cases are modelled as `none` and
are unreachable from any claim: an all-digits-and-dots string with two dots
raises `ValueError` out of this branch (no `try` around line 48), and a
nonempty string that strips to `""` raises `IndexError` at `amount_str[-1]`. -/
def parse_amount (s : Str) : Option ℚ :=
  if s = [] then none
  else if (stripCommas (pyStrip s)).filter (fun c => decide (c ≠ '.')) ≠ [] ∧
      ((stripCommas (pyStrip s)).filter (fun c => decide (c ≠ '.'))).all isDigitC then
    pyFloat? (stripCommas (pyStrip s))
  else
    match (stripCommas (pyStrip s)).getLast? with
    | none => none
    | some c =>
      if upChar c = 'K' then
        (pyFloat? (stripCommas (pyStrip s)).dropLast).map (· * 1000)
      else if upChar c = 'M' then
        (pyFloat? (stripCommas (pyStrip s)).dropLast).map (· * 1000000)
      else if upChar c = 'B' then
        (pyFloat? (stripCommas (pyStrip s)).dropLast).map (· * 1000000000)
      else if upChar c = 'T' then
        (pyFloat? (stripCommas (pyStrip s)).dropLast).map (· * 1000000000000)
      else none

/-- `MinecraftPaymentBot._parse_amount` (bot.py lines 220-247); also accepts a
`Q` suffix.  The empty string raises `IndexError` at `amount_str[-1]` in the
source; modelled as `none` (unreachable from the claims). -/
def botMethodParseAmount (s : Str) : Option ℚ :=
  match (stripCommas (pyStrip (upStr s))).getLast? with
  | none => none
  | some c =>
    if c = 'K' then (pyFloat? (stripCommas (pyStrip (upStr s))).dropLast).map (· * 1000)
    else if c = 'M' then (pyFloat? (stripCommas (pyStrip (upStr s))).dropLast).map (· * 1000000)
    else if c = 'B' then (pyFloat? (stripCommas (pyStrip (upStr s))).dropLast).map (· * 1000000000)
    else if c = 'T' then (pyFloat? (stripCommas (pyStrip (upStr s))).dropLast).map (· * 1000000000000)
    else if c = 'Q' then (pyFloat? (stripCommas (pyStrip (upStr s))).dropLast).map (· * 1000000000000000)
    else pyFloat? (stripCommas (pyStrip (upStr s)))

/-- The `try` body of `GamblingCog.parse_amount` (gambling.py lines 165-178):
uppercase, strip commas, dispatch on a K/M/B/T final character, otherwise plain
`float`.  `none` models a raised `ValueError`. -/
def gamblingParseAmountE (s : Str) : Option ℚ :=
  if (stripCommas (upStr s)).getLast? = some 'K' then
    (pyFloat? (stripCommas (upStr s)).dropLast).map (· * 1000)
  else if (stripCommas (upStr s)).getLast? = some 'M' then
    (pyFloat? (stripCommas (upStr s)).dropLast).map (· * 1000000)
  else if (stripCommas (upStr s)).getLast? = some 'B' then
    (pyFloat? (stripCommas (upStr s)).dropLast).map (· * 1000000000)
  else if (stripCommas (upStr s)).getLast? = some 'T' then
    (pyFloat? (stripCommas (upStr s)).dropLast).map (· * 1000000000000)
  else pyFloat? (stripCommas (upStr s))

/-- `GamblingCog.parse_amount` (gambling.py lines 165-180): the `except
ValueError` handler turns any parse failure into `0.0`. -/
def gamblingParseAmount (s : Str) : ℚ := (gamblingParseAmountE s).getD 0

/-- The inline amount parse of `GambleModal.on_submit` (gambling.py lines
577-587): strip, uppercase, dispatch on a K/M/B/T suffix, otherwise plain
`float`.  It does NOT strip commas.  `none` models a raised `ValueError`,
which the handler answers with the invalid-amount rejection. -/
def modalParseAmountE (s : Str) : Option ℚ :=
  if (upStr (pyStrip s)).getLast? = some 'K' then
    (pyFloat? (upStr (pyStrip s)).dropLast).map (· * 1000)
  else if (upStr (pyStrip s)).getLast? = some 'M' then
    (pyFloat? (upStr (pyStrip s)).dropLast).map (· * 1000000)
  else if (upStr (pyStrip s)).getLast? = some 'B' then
    (pyFloat? (upStr (pyStrip s)).dropLast).map (· * 1000000000)
  else if (upStr (pyStrip s)).getLast? = some 'T' then
    (pyFloat? (upStr (pyStrip s)).dropLast).map (· * 1000000000000)
  else pyFloat? (upStr (pyStrip s))

/-- Modelled from the spec: the numeric parsing rule of spec section 4.4
("strip thousands separators; if the final character is one of K/M/B/T
(case-insensitive), multiply the remaining numeric prefix by
10^3/10^6/10^9/10^12 respectively; otherwise parse as a plain decimal"),
with "<number>" read as an unsigned simple decimal literal as in the claims'
"valid amount strings".  Used only as the specification side of the
refinement statement for claim C2. -/
def specSuffixMult (c : Char) : Option ℚ :=
  if upChar c = 'K' then some 1000
  else if upChar c = 'M' then some 1000000
  else if upChar c = 'B' then some 1000000000
  else if upChar c = 'T' then some 1000000000000
  else none

/-- Modelled from the spec: see `specSuffixMult`.  `specParse s = some v` says
that `s` is a valid amount string of value `v` in the sense of claim C2. -/
def specParse (s : Str) : Option ℚ :=
  match (stripCommas s).getLast? with
  | none => none
  | some c =>
    match specSuffixMult c with
    | some m =>
        if isDecLit (stripCommas s).dropLast then
          some (decVal (stripCommas s).dropLast * m)
        else none
    | none => if isDecLit (stripCommas s) then some (decVal (stripCommas s)) else none


/-! ## The gambling cog state machine (gambling.py)

`verified_users` and `pending_verifications` are Python dicts keyed by the
Discord user id; dicts preserve insertion order and we model them as
association lists.  `save_gambling_data` writes the whole store to
gambling_data.json; the file contents are the `persisted` field.  Chat-log
lines are modelled without their trailing newline, which no pattern in the
program can match anyway. -/

/-- One entry of `verified_users`. -/
structure UserData where
  minecraft_username : Str
  balance : ℚ
  verification_pending : Bool
deriving DecidableEq, Repr

/-- One entry of `pending_verifications`. -/
structure PendingData where
  minecraft_username : Str
  timestamp : ℚ
deriving DecidableEq, Repr

/-- The persistent gambling store (contents of the cog's two dicts). -/
structure Store where
  verified_users : List (ℕ × UserData)
  pending_verifications : List (ℕ × PendingData)
deriving DecidableEq, Repr

/-- The store together with the contents of the durable file
gambling_data.json. -/
structure PersistState where
  store : Store
  persisted : Store
deriving DecidableEq, Repr

/-- `save_gambling_data`: full-store write-through to the durable file. -/
def saveData (st : PersistState) : PersistState := { st with persisted := st.store }

/-! ### The two chat-log regexes

`re.search` scans candidate start positions left to right; at each position a
greedy `\w+` run must be followed by the literal part of the pattern.  The
leftmost match's group 1 is the maximal word-character run ending at the
literal. -/

/-- The literal part of the payment pattern `(\w+) paid you \$([0-9,.]+[KMBT]?)`. -/
def payLit : Str := " paid you $".data

/-- Try to match the payment pattern at the head of `s`: a nonempty word run,
then `payLit`, then at least one `[0-9,.]` character, then optionally one
`[KMBT]` character (greedy, as the regex backtracks at most the optional
suffix). -/
def tryPayAt (s : Str) : Option (Str × Str) :=
  let run := s.takeWhile isWordC
  if run = [] then none
  else
    let rest := s.drop run.length
    if payLit.isPrefixOf rest then
      let afterLit := rest.drop payLit.length
      let amt := afterLit.takeWhile isAmtChar
      if amt = [] then none
      else
        let suff : Str :=
          match (afterLit.drop amt.length).head? with
          | some c => if isSuffixChar c then [c] else []
          | none => []
        some (run, amt ++ suff)
    else none

/-- `re.search(r'(\w+) paid you \$([0-9,.]+[KMBT]?)', line)`: payer and raw
amount string of the leftmost match, if any. -/
def paymentMatch? : Str → Option (Str × Str)
  | [] => none
  | c :: rest =>
    match tryPayAt (c :: rest) with
    | some r => some r
    | none => paymentMatch? rest

/-- The literal part of the verification whisper pattern: the bot account
name is hard-coded in gambling.py line 193. -/
def whisperLit : Str := " -> thebestgambler175648: verify".data

/-- Try to match the whisper pattern at the head of `s`. -/
def tryWhisperAt (s : Str) : Option Str :=
  let run := s.takeWhile isWordC
  if run = [] then none
  else if whisperLit.isPrefixOf (s.drop run.length) then some run else none

/-- `re.search(r'(\w+) -> thebestgambler175648: verify', line)`: the sender
of the leftmost matching whisper, if any. -/
def whisperSender? : Str → Option Str
  | [] => none
  | c :: rest =>
    match tryWhisperAt (c :: rest) with
    | some r => some r
    | none => whisperSender? rest

/-! ### Payment notifications (gambling.py lines 134-163) -/

/-- The `for discord_id, user_data in self.verified_users.items()` loop body:
credit the first user whose minecraft_username equals the payer, and report
whether one was found (the loop `break`s after the first hit). -/
def creditFirst (users : List (ℕ × UserData)) (payer : Str) (amt : ℚ) :
    List (ℕ × UserData) × Bool :=
  match users with
  | [] => ([], false)
  | (i, u) :: rest =>
    if u.minecraft_username = payer then
      ((i, { u with balance := u.balance + amt }) :: rest, true)
    else
      let r := creditFirst rest payer amt
      ((i, u) :: r.1, r.2)

/-- Python `lst[-n:]`. -/
def lastN (n : ℕ) (l : List Str) : List Str := l.drop (l.length - n)

/-- Processing of one chat-log line by `check_payment_notifications`: on a
payment match, strip commas from the amount group, parse it with
`GamblingCog.parse_amount`, credit the first matching verified user and save;
otherwise do nothing. -/
def processPaymentLine (st : PersistState) (line : Str) : PersistState :=
  match paymentMatch? line with
  | none => st
  | some pm =>
    let amount := gamblingParseAmount (stripCommas pm.2)
    let r := creditFirst st.store.verified_users pm.1 amount
    if r.2 then
      saveData { st with store := { st.store with verified_users := r.1 } }
    else st

/-- `check_payment_notifications`: scan the last 50 lines of the shared chat
log.  There is no consumed-offset tracking: every tick re-reads the whole
trailing window. -/
def check_payment_notifications (st : PersistState) (log : List Str) : PersistState :=
  (lastN 50 log).foldl processPaymentLine st

/-! ### Verification whispers (gambling.py lines 182-212) -/

/-- The `for discord_id, pending_data in list(...items())` loop: id of the
first pending verification whose minecraft_username equals the sender. -/
def promoteFirst (pend : List (ℕ × PendingData)) (u : Str) : Option ℕ :=
  match pend with
  | [] => none
  | (i, p) :: rest => if p.minecraft_username = u then some i else promoteFirst rest u

/-- Python dict assignment `d[k] = v`: replace in place if the key exists
(its position is preserved), append otherwise. -/
def setVerified (users : List (ℕ × UserData)) (i : ℕ) (d : UserData) :
    List (ℕ × UserData) :=
  if users.any (fun p => decide (p.1 = i)) then
    users.map (fun p => if p.1 = i then (i, d) else p)
  else users ++ [(i, d)]

/-- Python `del d[k]`. -/
def removePending (pend : List (ℕ × PendingData)) (i : ℕ) : List (ℕ × PendingData) :=
  pend.filter (fun p => decide (p.1 ≠ i))

/-- Processing of one chat-log line by `check_verification_messages`: on a
whisper match with a pending verification for the sender, promote it to a
verified user with balance 0.0 and pending flag False, delete the pending
entry, and save. -/
def processVerificationLine (st : PersistState) (line : Str) : PersistState :=
  match whisperSender? line with
  | none => st
  | some u =>
    match promoteFirst st.store.pending_verifications u with
    | none => st
    | some i =>
      saveData { st with store :=
        { verified_users := setVerified st.store.verified_users i ⟨u, 0, false⟩,
          pending_verifications := removePending st.store.pending_verifications i } }

/-- `check_verification_messages`: scan the last 20 lines of the shared chat
log, again with no consumed-offset tracking. -/
def check_verification_messages (st : PersistState) (log : List Str) : PersistState :=
  (lastN 20 log).foldl processVerificationLine st

/-- One tick of the `check_minecraft_chat` loop (every second): payment
notifications, then verification messages, over the same log file. -/
def check_minecraft_chat (st : PersistState) (log : List Str) : PersistState :=
  check_verification_messages (check_payment_notifications st log) log

/-! ### Pending-verification registration (VerificationModal.on_submit,
gambling.py lines 489-494) -/

/-- Python dict assignment for `pending_verifications`. -/
def setPending (pend : List (ℕ × PendingData)) (i : ℕ) (d : PendingData) :
    List (ℕ × PendingData) :=
  if pend.any (fun p => decide (p.1 = i)) then
    pend.map (fun p => if p.1 = i then (i, d) else p)
  else pend ++ [(i, d)]

/-- `VerificationModal.on_submit` store mutation: record the pending
verification for the submitting user and save. -/
def registerPending (st : PersistState) (i : ℕ) (username : Str) (ts : ℚ) :
    PersistState :=
  saveData
    { st with
      store :=
        { st.store with
          pending_verifications := setPending st.store.pending_verifications i ⟨username, ts⟩ } }

/-! ### The wager (GambleModal.on_submit, gambling.py lines 571-655) -/

/-- Result surfaced to the user by the wager handler. -/
inductive GambleOutcome where
  | invalidAmount : GambleOutcome
  | insufficient : GambleOutcome
  | resolved : Bool → GambleOutcome
deriving DecidableEq, Repr

/-- `self.cog.verified_users.get(user_id, {})`-style lookup. -/
def lookupUser (users : List (ℕ × UserData)) (i : ℕ) : Option UserData :=
  (users.find? (fun p => decide (p.1 = i))).map (fun p => p.2)

/-- `self.cog.verified_users[user_id]['balance'] += delta` (the key is known
to be present on the path that reaches it). -/
def updateBalance (users : List (ℕ × UserData)) (i : ℕ) (delta : ℚ) :
    List (ℕ × UserData) :=
  users.map (fun p => if p.1 = i then (p.1, { p.2 with balance := p.2.balance + delta }) else p)

/-- `GambleModal.on_submit`, with the random draw of `random.random()` (a
float in [0,1)) taken as an input.  The parse failure and the
`amount <= 0` raise both land in the `except ValueError` branch (the
invalid-amount message); `amount > balance` gives the insufficient-funds
message; otherwise the wager resolves: the user wins iff the draw is below
0.1 (source comment: "Rigged 10% chance of winning instead of 50%"), the
balance is credited by the bet amount on a win and debited by it on a loss,
and the store is saved. -/
def gambleOnSubmit (st : PersistState) (i : ℕ) (input : Str) (draw : ℚ) :
    PersistState × GambleOutcome :=
  let balance := ((lookupUser st.store.verified_users i).map
    (fun u => u.balance)).getD 0
  match modalParseAmountE input with
  | none => (st, GambleOutcome.invalidAmount)
  | some amount =>
    if amount ≤ 0 then (st, GambleOutcome.invalidAmount)
    else if amount > balance then (st, GambleOutcome.insufficient)
    else
      let won : Bool := decide (draw < 1 / 10)
      let delta := if won then amount else -amount
      (saveData { st with store :=
        { st.store with verified_users := updateBalance st.store.verified_users i delta } },
       GambleOutcome.resolved won)


/-! ## Concrete states used by witnesses and counterexamples -/

/-- A store with one verified user Alice (id 1, balance 0). -/
def c4Store : Store :=
  { verified_users := [(1, ⟨"Alice".data, 0, false⟩)], pending_verifications := [] }

/-- Alice's store, loaded and in sync with the durable file. -/
def c4State : PersistState := { store := c4Store, persisted := c4Store }

/-- A chat log holding a single payment line, which stays inside the scanned
trailing window across consecutive ticks. -/
def c4Log : List Str := ["Alice paid you $5".data]

/-- A store with one pending verification for Alice under discord id 7. -/
def c5Store : Store :=
  { verified_users := [], pending_verifications := [(7, ⟨"Alice".data, 0⟩)] }

def c5State : PersistState := { store := c5Store, persisted := c5Store }

/-- The verification whisper line for Alice. -/
def verifyLine : Str := "Alice -> thebestgambler175648: verify".data

/-- A store with one verified user Bob (id 2, balance 3); no entry for Alice. -/
def c6Store : Store :=
  { verified_users := [(2, ⟨"Bob".data, 3, false⟩)], pending_verifications := [] }

def c6State : PersistState := { store := c6Store, persisted := c6Store }

/-- A store with one verified user Alice (id 1, balance 10). -/
def c9Store : Store :=
  { verified_users := [(1, ⟨"Alice".data, 10, false⟩)], pending_verifications := [] }

def c9State : PersistState := { store := c9Store, persisted := c9Store }


/-! ## The process supervisor and command-file protocol (bot.py)

An OS process is modelled by its account, whether it is currently alive, and
whether it survives a graceful terminate signal past the grace period
(`ignoresTerm` — an environment input, as the external client's behaviour is
not under the program's control).  `procs` accumulates every process ever
spawned; the handle maps (`afk_processes`, `minecraft_process`) index into
it.  `files` is the project directory (path to contents).  Failure branches
that spawn nothing (missing node script, missing API key) are not modelled;
a spawned process that exits within the ~3s initialization window is
modelled by the `newDiesInit` input. -/

structure Proc where
  account : Str
  alive : Bool
  ignoresTerm : Bool
deriving DecidableEq, Repr

structure BotState where
  procs : List Proc
  afk_processes : List (Str × ℕ)
  minecraft_process : Option ℕ
  minecraft_connected : Bool
  mainUsername : Str
  configUsername : Str
  files : List (Str × Str)
deriving DecidableEq, Repr

def lookupKey {α : Type} (l : List (Str × α)) (k : Str) : Option α :=
  (l.find? (fun p => decide (p.1 = k))).map (fun p => p.2)

/-- Python dict assignment / file overwrite: replace in place, else append. -/
def setKey {α : Type} (l : List (Str × α)) (k : Str) (v : α) : List (Str × α) :=
  if l.any (fun p => decide (p.1 = k)) then
    l.map (fun p => if p.1 = k then (k, v) else p)
  else l ++ [(k, v)]

/-- Python `del d[k]` / `os.remove` (if present). -/
def removeKey {α : Type} (l : List (Str × α)) (k : Str) : List (Str × α) :=
  l.filter (fun p => decide (p.1 ≠ k))

def modifyIdx {α : Type} : List α → ℕ → (α → α) → List α
  | [], _, _ => []
  | x :: xs, 0, f => f x :: xs
  | x :: xs, n + 1, f => x :: modifyIdx xs n f

/-- `terminate(); wait(timeout=5)` inside `try/except: pass` — and also a bare
`terminate()` with no wait: the process dies unless it ignores the graceful
signal; there is NO `kill()` escalation on these paths, so a process that
ignores the signal stays alive. -/
def terminateGrace (p : Proc) : Proc :=
  if p.ignoresTerm then p else { p with alive := false }

/-- `terminate(); wait(timeout=5) except TimeoutExpired: kill()` — the
disconnect path's escalation: the process is dead afterwards in any case. -/
def terminateKill (p : Proc) : Proc := { p with alive := false }

/-- `MinecraftPaymentBot._is_main_account` (bot.py lines 662-665). -/
def isMainAccount (st : BotState) (u : Str) : Bool :=
  decide (u = st.mainUsername) || decide (u = st.configUsername)

/-- Per-account command file `minecraft_command_{username}.txt`. -/
def commandFilePath (u : Str) : Str := "minecraft_command_".data ++ u ++ ".txt".data

/-- Per-account status file `minecraft_status_{username}.json`. -/
def statusFilePath (u : Str) : Str := "minecraft_status_".data ++ u ++ ".json".data

/-- The main account's shared command file `minecraft_command.txt`. -/
def mainCommandFile : Str := "minecraft_command.txt".data

def readFile? (files : List (Str × Str)) (p : Str) : Option Str := lookupKey files p

/-- Number of live OS processes belonging to account `u`. -/
def liveProcsFor (st : BotState) (u : Str) : ℕ :=
  (st.procs.filter (fun p => decide (p.account = u) && p.alive)).length

/-- `_connect_afk_account_simple` (bot.py lines 667-736), supervision part:
skip the main account; terminate any existing process for this account
(grace period, no force-kill); spawn the new client with the account's
environment and record its handle.  `newIgnores` and `newDiesInit` are the
new process's behaviour (inputs).  The returned Bool is connect success. -/
def connect_afk (st : BotState) (account : Str) (newIgnores newDiesInit : Bool) :
    BotState × Bool :=
  if isMainAccount st account then (st, false)
  else
    let procs1 := match lookupKey st.afk_processes account with
                  | some j => modifyIdx st.procs j terminateGrace
                  | none => st.procs
    ({ st with
        procs := procs1 ++ [⟨account, !newDiesInit, newIgnores⟩],
        afk_processes := setKey st.afk_processes account procs1.length },
     !newDiesInit)

/-- `_disconnect_afk_account_simple` (bot.py lines 754-793): skip the main
account; if a handle exists, terminate with kill escalation, drop the handle,
and delete the account's command file and status file. -/
def disconnect_afk (st : BotState) (u : Str) : BotState × Bool :=
  if isMainAccount st u then (st, false)
  else
    match lookupKey st.afk_processes u with
    | none => (st, false)
    | some j =>
        ({ st with
            procs := modifyIdx st.procs j terminateKill,
            afk_processes := removeKey st.afk_processes u,
            files := removeKey (removeKey st.files (commandFilePath u))
              (statusFilePath u) },
         true)

/-- `_connect_minecraft` (bot.py lines 306-364), supervision part: refuse if
already connected; terminate any existing client process (grace period, no
force-kill); spawn the new client and set the connected flag if it survives
the initialization window. -/
def connect_main (st : BotState) (newIgnores newDiesInit : Bool) : BotState × Bool :=
  if st.minecraft_connected then (st, false)
  else
    let procs1 := match st.minecraft_process with
                  | some j => modifyIdx st.procs j terminateGrace
                  | none => st.procs
    ({ st with
        procs := procs1 ++ [⟨st.configUsername, !newDiesInit, newIgnores⟩],
        minecraft_process := some procs1.length,
        minecraft_connected := !newDiesInit },
     !newDiesInit)

/-- `_disconnect_minecraft` (bot.py lines 590-607): refuse if not connected;
otherwise a bare `terminate()` (no wait, no kill), drop the handle, clear the
flag.  No file is deleted on this path. -/
def disconnect_main (st : BotState) : BotState × Bool :=
  if st.minecraft_connected then
    let procs1 := match st.minecraft_process with
                  | some j => modifyIdx st.procs j terminateGrace
                  | none => st.procs
    ({ st with
        procs := procs1,
        minecraft_process := none,
        minecraft_connected := false }, true)
  else (st, false)

/-- An AFK state: Alice's client is live and ignores the graceful terminate
signal (it does not exit within the 5-second grace period). -/
def c1StubbornState : BotState :=
  { procs := [⟨"Alice".data, true, true⟩], afk_processes := [("Alice".data, 0)],
    minecraft_process := none, minecraft_connected := false,
    mainUsername := "MainAcc".data, configUsername := "MainAcc".data, files := [] }

/-- The same state with a compliant client (exits within the grace period). -/
def c1CompliantState : BotState :=
  { procs := [⟨"Alice".data, true, false⟩], afk_processes := [("Alice".data, 0)],
    minecraft_process := none, minecraft_connected := false,
    mainUsername := "MainAcc".data, configUsername := "MainAcc".data, files := [] }

/-- A main-account state: the client is live, connected, and ignores the
graceful terminate signal. -/
def c1MainState : BotState :=
  { procs := [⟨"MainAcc".data, true, true⟩], afk_processes := [],
    minecraft_process := some 0, minecraft_connected := true,
    mainUsername := "MainAcc".data, configUsername := "MainAcc".data, files := [] }

/-- A connected main-account state with a stale command in the shared
command file. -/
def c8MainState : BotState :=
  { procs := [⟨"MainAcc".data, true, false⟩], afk_processes := [],
    minecraft_process := some 0, minecraft_connected := true,
    mainUsername := "MainAcc".data, configUsername := "MainAcc".data,
    files := [(mainCommandFile, "/pay Bob 5".data)] }

/-- A state with AFK account Alice connected and both of her account-scoped
files on disk. -/
def c8AfkState : BotState :=
  { procs := [⟨"Alice".data, true, false⟩], afk_processes := [("Alice".data, 0)],
    minecraft_process := none, minecraft_connected := false,
    mainUsername := "MainAcc".data, configUsername := "MainAcc".data,
    files := [(commandFilePath "Alice".data, "/warp afk".data),
              (statusFilePath "Alice".data, "{}".data)] }

/-- Evaluation helper: rational arithmetic does not reduce in the kernel, so
concrete values of `decVal` are obtained from kernel-checked `ℕ` facts. -/
theorem decVal_eq (s : Str) (a n : ℕ)
    (h1 : digitsVal (s.filter (fun c => decide (c ≠ '.'))) = a)
    (h2 : fracLen s = n) : decVal s = (a : ℚ) / 10 ^ n := by
  unfold decVal; rw [h1, h2]

example : specParse "1.5B".data = some 1500000000 := by
  have h : specParse "1.5B".data = some (decVal "1.5".data * 1000000000) := rfl
  rw [h, decVal_eq "1.5".data 15 1 (by decide) (by decide)]; norm_num

example : specParse "10,000".data = some 10000 := by
  have h : specParse "10,000".data = some (decVal "10000".data) := rfl
  rw [h, decVal_eq "10000".data 10000 0 (by decide) (by decide)]; norm_num

example : parse_amount "10,000".data = some (decVal "10000".data) := rfl
example : gamblingParseAmountE "1.5b".data = some (decVal "1.5".data * 1000000000) := rfl
example : modalParseAmountE "10,000".data = none := by decide
example : gamblingParseAmountE "ABC".data = none := by decide
example : gamblingParseAmount "ABC".data = 0 := rfl

/-! ## Generic list lemmas -/

theorem filter_map_swap (f : Char → Char) (q : Char → Bool) (l : Str) :
    (l.map f).filter q = (l.filter (fun c => q (f c))).map f := by
  induction l with
  | nil => rfl
  | cons c r ih =>
      by_cases h : q (f c) = true
      · simp [List.filter_cons, h, ih]
      · simp only [Bool.not_eq_true] at h
        simp [List.filter_cons, h, ih]

theorem map_id_of {f : Char → Char} {l : Str} (h : ∀ c ∈ l, f c = c) :
    l.map f = l := by
  induction l with
  | nil => rfl
  | cons c r ih =>
      simp only [List.map_cons, h c (List.mem_cons_self c r)]
      rw [ih (fun x hx => h x (List.mem_cons_of_mem c hx))]

theorem filter_congr_mem {p q : Char → Bool} {l : Str}
    (h : ∀ c ∈ l, p c = q c) : l.filter p = l.filter q := by
  induction l with
  | nil => rfl
  | cons c r ih =>
      have hr := ih (fun x hx => h x (List.mem_cons_of_mem c hx))
      by_cases hc : p c = true
      · simp [List.filter_cons, hc, ← h c (List.mem_cons_self c r), hr]
      · simp only [Bool.not_eq_true] at hc
        simp [List.filter_cons, hc, ← h c (List.mem_cons_self c r), hr]

theorem dropWhile_eq_self_of {p : Char → Bool} {l : Str}
    (h : ∀ c ∈ l, p c = false) : l.dropWhile p = l := by
  cases l with
  | nil => rfl
  | cons c r => simp [List.dropWhile_cons, h c (List.mem_cons_self c r)]

theorem pyStrip_eq_self {l : Str} (h : ∀ c ∈ l, isSpaceChar c = false) :
    pyStrip l = l := by
  unfold pyStrip
  rw [dropWhile_eq_self_of h,
      dropWhile_eq_self_of (fun c hc => h c (List.mem_reverse.mp hc)),
      List.reverse_reverse]

theorem eq_dropLast_concat {l : Str} {c : Char} (h : l.getLast? = some c) :
    l = l.dropLast ++ [c] := by
  cases l with
  | nil => simp at h
  | cons a r =>
      have hne : (a :: r) ≠ ([] : Str) := by simp
      rw [List.getLast?_eq_getLast _ hne] at h
      have hc : (a :: r).getLast hne = c := by injection h
      rw [← hc]
      exact (List.dropLast_append_getLast hne).symm

theorem all_eq_false_of_mem {p : Char → Bool} {l : Str} {c : Char}
    (hm : c ∈ l) (hp : p c = false) : l.all p = false := by
  by_contra h
  have := (List.all_eq_true.mp (eq_true_of_ne_false h)) c hm
  rw [hp] at this
  exact Bool.false_ne_true this

/-! ## Character-level lemmas -/

theorem upChar_of_lt {c : Char} (h : c.toNat < 97) : upChar c = c := by
  unfold upChar
  rw [if_neg]
  omega

theorem isDigitC_iff {c : Char} : isDigitC c = true ↔ 48 ≤ c.toNat ∧ c.toNat ≤ 57 := by
  unfold isDigitC
  exact decide_eq_true_iff

theorem isSpaceChar_iff {c : Char} :
    isSpaceChar c = true ↔ (c.toNat = 32 ∨ c.toNat = 9 ∨ c.toNat = 10 ∨
      c.toNat = 13 ∨ c.toNat = 11 ∨ c.toNat = 12) := by
  unfold isSpaceChar
  exact decide_eq_true_iff

theorem upChar_digit {c : Char} (h : isDigitC c = true) : upChar c = c :=
  upChar_of_lt (by have := (isDigitC_iff.mp h).2; omega)

theorem digit_not_space {c : Char} (h : isDigitC c = true) : isSpaceChar c = false := by
  rcases isDigitC_iff.mp h with ⟨h1, h2⟩
  by_contra hs
  have := isSpaceChar_iff.mp (eq_true_of_ne_false hs)
  omega

theorem digit_ne {c d : Char} (h : isDigitC c = true) (hd : 58 ≤ d.toNat ∨ d.toNat ≤ 47) :
    c ≠ d := by
  rcases isDigitC_iff.mp h with ⟨h1, h2⟩
  intro he
  subst he
  omega

/-- The four possible outcomes of a successful suffix test in the spec rule. -/
theorem specSuffixMult_cases {c : Char} {m : ℚ} (h : specSuffixMult c = some m) :
    (upChar c = 'K' ∧ m = 1000) ∨ (upChar c = 'M' ∧ m = 1000000) ∨
    (upChar c = 'B' ∧ m = 1000000000) ∨ (upChar c = 'T' ∧ m = 1000000000000) := by
  unfold specSuffixMult at h
  split_ifs at h with h1 h2 h3 h4 <;> simp_all

theorem suffix_char_not_space {c : Char} {m : ℚ} (h : specSuffixMult c = some m) :
    isSpaceChar c = false := by
  by_contra hs
  have hlt : c.toNat < 97 := by
    have := isSpaceChar_iff.mp (eq_true_of_ne_false hs)
    omega
  have hup := upChar_of_lt hlt
  have htn : c.toNat = 32 ∨ c.toNat = 9 ∨ c.toNat = 10 ∨ c.toNat = 13 ∨
      c.toNat = 11 ∨ c.toNat = 12 := isSpaceChar_iff.mp (eq_true_of_ne_false hs)
  rcases specSuffixMult_cases h with ⟨he, _⟩ | ⟨he, _⟩ | ⟨he, _⟩ | ⟨he, _⟩ <;>
    (rw [hup] at he; subst he; revert htn; decide)

theorem suffix_char_not_digit {c : Char} {m : ℚ} (h : specSuffixMult c = some m) :
    isDigitC c = false := by
  by_contra hd
  have hd' := eq_true_of_ne_false hd
  have hup := upChar_digit hd'
  have := (isDigitC_iff.mp hd').2
  rcases specSuffixMult_cases h with ⟨he, _⟩ | ⟨he, _⟩ | ⟨he, _⟩ | ⟨he, _⟩ <;>
    (rw [hup] at he; subst he; revert this; decide)

theorem suffix_char_ne_dot {c : Char} {m : ℚ} (h : specSuffixMult c = some m) :
    c ≠ '.' := by
  intro he
  subst he
  rcases specSuffixMult_cases h with ⟨he, _⟩ | ⟨he, _⟩ | ⟨he, _⟩ | ⟨he, _⟩ <;>
    (revert he; decide)

theorem suffix_char_ne_comma {c : Char} {m : ℚ} (h : specSuffixMult c = some m) :
    c ≠ ',' := by
  intro he
  subst he
  rcases specSuffixMult_cases h with ⟨he, _⟩ | ⟨he, _⟩ | ⟨he, _⟩ | ⟨he, _⟩ <;>
    (revert he; decide)

/-! ## Decimal-literal lemmas -/

theorem decLit_chars {s : Str} (h : isDecLit s = true) :
    ∀ c ∈ s, isDigitC c = true ∨ c = '.' := by
  intro c hc
  have h1 := (Bool.and_eq_true_iff.mp (Bool.and_eq_true_iff.mp h).1).1
  have := List.all_eq_true.mp h1 c hc
  rcases (Bool.or_eq_true _ _).mp this with hd | he
  · exact Or.inl hd
  · exact Or.inr (eq_of_beq he)

theorem decLit_nonempty {s : Str} (h : isDecLit s = true) : s ≠ [] := by
  have h2 := (Bool.and_eq_true_iff.mp h).2
  rcases List.any_eq_true.mp h2 with ⟨c, hc, _⟩
  exact List.ne_nil_of_mem hc

theorem decLit_nospace {s : Str} (h : isDecLit s = true) :
    ∀ c ∈ s, isSpaceChar c = false := by
  intro c hc
  rcases decLit_chars h c hc with hd | he
  · exact digit_not_space hd
  · subst he; decide

theorem decLit_upStr {s : Str} (h : isDecLit s = true) : upStr s = s := by
  apply map_id_of
  intro c hc
  rcases decLit_chars h c hc with hd | he
  · exact upChar_digit hd
  · subst he; decide

theorem pyStrip_decLit {s : Str} (h : isDecLit s = true) : pyStrip s = s :=
  pyStrip_eq_self (decLit_nospace h)

theorem pyFloat?_decLit {t : Str} (h : isDecLit t = true) :
    pyFloat? t = some (decVal t) := by
  cases t with
  | nil => exact absurd rfl (decLit_nonempty h)
  | cons c r =>
      have hc : isDigitC c = true ∨ c = '.' :=
        decLit_chars h c (List.mem_cons_self c r)
      have h1 : c ≠ '-' := by
        rcases hc with hd | he
        · exact digit_ne hd (Or.inr (by decide))
        · subst he; decide
      have h2 : c ≠ '+' := by
        rcases hc with hd | he
        · exact digit_ne hd (Or.inr (by decide))
        · subst he; decide
      unfold pyFloat?
      rw [pyStrip_decLit h]
      simp only [if_neg h1, if_neg h2, if_pos h]

/-- Filtering the dot out of a decimal literal leaves a nonempty digit
string: the test of `parse_amount`'s plain-number branch succeeds. -/
theorem decLit_filter_digits {t : Str} (h : isDecLit t = true) :
    (t.filter (fun c => decide (c ≠ '.'))) ≠ [] ∧
    (t.filter (fun c => decide (c ≠ '.'))).all isDigitC = true := by
  constructor
  · have h2 := (Bool.and_eq_true_iff.mp h).2
    rcases List.any_eq_true.mp h2 with ⟨d, hd, hdig⟩
    have hne : d ≠ '.' := digit_ne hdig (Or.inr (by decide))
    exact List.ne_nil_of_mem (List.mem_filter.mpr ⟨hd, by simp [hne]⟩)
  · apply List.all_eq_true.mpr
    intro c hc
    rcases List.mem_filter.mp hc with ⟨hmem, hdec⟩
    rcases decLit_chars h c hmem with hd | he
    · exact hd
    · subst he; simp at hdec

/-! ## Structure of successful spec-rule parses -/

theorem specParse_elim {s : Str} {v : ℚ} (h : specParse s = some v) :
    (∃ ds cl m, stripCommas s = ds ++ [cl] ∧ isDecLit ds = true ∧
      specSuffixMult cl = some m ∧ v = decVal ds * m) ∨
    (isDecLit (stripCommas s) = true ∧ v = decVal (stripCommas s) ∧
      ∃ cl, (stripCommas s).getLast? = some cl ∧ specSuffixMult cl = none) := by
  unfold specParse at h
  split at h
  · simp at h
  · next cl hl =>
      split at h
      · next m hsm =>
          split_ifs at h with hds
          refine Or.inl ⟨(stripCommas s).dropLast, cl, m, eq_dropLast_concat hl, hds, hsm, ?_⟩
          injection h with h
          exact h.symm
      · next hsm =>
          split_ifs at h with hds
          refine Or.inr ⟨hds, ?_, cl, hl, hsm⟩
          injection h with h
          exact h.symm

theorem specParse_chars {s : Str} {v : ℚ} (h : specParse s = some v) :
    ∀ c ∈ s, c = ',' ∨ isDigitC c = true ∨ c = '.' ∨ ∃ m, specSuffixMult c = some m := by
  intro c hc
  by_cases hcomma : c = ','
  · exact Or.inl hcomma
  · have hmem : c ∈ stripCommas s := List.mem_filter.mpr ⟨hc, by simp [hcomma]⟩
    rcases specParse_elim h with ⟨ds, cl, m, ht, hds, hsm, _⟩ | ⟨hdl, _, _⟩
    · rw [ht] at hmem
      rcases List.mem_append.mp hmem with hin | hlast
      · rcases decLit_chars hds c hin with hd | he
        · exact Or.inr (Or.inl hd)
        · exact Or.inr (Or.inr (Or.inl he))
      · have : c = cl := by simpa using hlast
        subst this
        exact Or.inr (Or.inr (Or.inr ⟨m, hsm⟩))
    · rcases decLit_chars hdl c hmem with hd | he
      · exact Or.inr (Or.inl hd)
      · exact Or.inr (Or.inr (Or.inl he))

theorem specParse_nospace {s : Str} {v : ℚ} (h : specParse s = some v) :
    ∀ c ∈ s, isSpaceChar c = false := by
  intro c hc
  rcases specParse_chars h c hc with he | hd | he | ⟨m, hm⟩
  · subst he; decide
  · exact digit_not_space hd
  · subst he; decide
  · exact suffix_char_not_space hm

theorem specParse_nospace_up {s : Str} {v : ℚ} (h : specParse s = some v) :
    ∀ c ∈ upStr s, isSpaceChar c = false := by
  intro c hc
  rcases List.mem_map.mp hc with ⟨d, hd, he⟩
  subst he
  rcases specParse_chars h d hd with he | hdig | he | ⟨m, hm⟩
  · subst he; decide
  · rw [upChar_digit hdig]; exact digit_not_space hdig
  · subst he; decide
  · rcases specSuffixMult_cases hm with ⟨he, _⟩ | ⟨he, _⟩ | ⟨he, _⟩ | ⟨he, _⟩ <;>
      (rw [he]; decide)

theorem strip_up_comm {s : Str} {v : ℚ} (h : specParse s = some v) :
    stripCommas (upStr s) = upStr (stripCommas s) := by
  unfold stripCommas upStr
  rw [filter_map_swap]
  congr 1
  apply filter_congr_mem
  intro c hc
  rcases specParse_chars h c hc with he | hdig | he | ⟨m, hm⟩
  · subst he; decide
  · rw [upChar_digit hdig]
  · subst he; decide
  · have h1 : upChar c ≠ ',' := by
      rcases specSuffixMult_cases hm with ⟨he, _⟩ | ⟨he, _⟩ | ⟨he, _⟩ | ⟨he, _⟩ <;>
        (rw [he]; decide)
    have h2 : c ≠ ',' := suffix_char_ne_comma hm
    simp [h1, h2]

theorem filter_eq_self_of {p : Char → Bool} {l : Str}
    (h : ∀ c ∈ l, p c = true) : l.filter p = l := by
  induction l with
  | nil => rfl
  | cons c r ih =>
      simp [List.filter_cons, h c (List.mem_cons_self c r),
        ih (fun x hx => h x (List.mem_cons_of_mem c hx))]

theorem specParse_ne_nil {s : Str} {v : ℚ} (h : specParse s = some v) : s ≠ [] := by
  intro he
  subst he
  simp [specParse, stripCommas] at h

/-- A digit or a dot is distinct from each of the uppercase suffix letters. -/
theorem digit_or_dot_ne_suffix {c : Char} (h : isDigitC c = true ∨ c = '.') :
    c ≠ 'K' ∧ c ≠ 'M' ∧ c ≠ 'B' ∧ c ≠ 'T' ∧ c ≠ 'Q' := by
  rcases h with hd | he
  · exact ⟨digit_ne hd (Or.inl (by decide)), digit_ne hd (Or.inl (by decide)),
      digit_ne hd (Or.inl (by decide)), digit_ne hd (Or.inl (by decide)),
      digit_ne hd (Or.inl (by decide))⟩
  · subst he; refine ⟨by decide, by decide, by decide, by decide, by decide⟩

/-! ## Refinement: each amount parser agrees with the spec rule -/

theorem parse_amount_refines {s : Str} {v : ℚ} (h : specParse s = some v) :
    parse_amount s = some v := by
  have hstrip : pyStrip s = s := pyStrip_eq_self (specParse_nospace h)
  unfold parse_amount
  rw [if_neg (specParse_ne_nil h), hstrip]
  rcases specParse_elim h with ⟨ds, cl, m, ht, hds, hsm, hv⟩ | ⟨hdl, hv, cl, hl, hsm⟩
  · rw [ht]
    have hclne : cl ≠ '.' := suffix_char_ne_dot hsm
    have hclnd : isDigitC cl = false := suffix_char_not_digit hsm
    have hmemf : cl ∈ (ds ++ [cl]).filter (fun c => decide (c ≠ '.')) :=
      List.mem_filter.mpr ⟨by simp, by simp [hclne]⟩
    have hall : ((ds ++ [cl]).filter (fun c => decide (c ≠ '.'))).all isDigitC = false :=
      all_eq_false_of_mem hmemf hclnd
    rw [if_neg (by intro hcond; rw [hall] at hcond; exact Bool.false_ne_true hcond.2)]
    rw [List.getLast?_concat, List.dropLast_concat]
    rcases specSuffixMult_cases hsm with ⟨he, hm⟩ | ⟨he, hm⟩ | ⟨he, hm⟩ | ⟨he, hm⟩ <;>
      (subst hm; subst hv; simp [he, pyFloat?_decLit hds])
  · rw [if_pos ⟨(decLit_filter_digits hdl).1, (decLit_filter_digits hdl).2⟩,
      pyFloat?_decLit hdl, hv]

theorem botMethod_refines {s : Str} {v : ℚ} (h : specParse s = some v) :
    botMethodParseAmount s = some v := by
  have hstrip : pyStrip (upStr s) = upStr s := pyStrip_eq_self (specParse_nospace_up h)
  unfold botMethodParseAmount
  rw [hstrip, strip_up_comm h]
  rcases specParse_elim h with ⟨ds, cl, m, ht, hds, hsm, hv⟩ | ⟨hdl, hv, cl, hl, hsm⟩
  · rw [ht]
    have hup : upStr (ds ++ [cl]) = ds ++ [upChar cl] := by
      unfold upStr
      rw [List.map_append]
      rw [show (ds.map upChar) = ds from decLit_upStr hds]
      rfl
    rw [hup, List.getLast?_concat, List.dropLast_concat]
    rcases specSuffixMult_cases hsm with ⟨he, hm⟩ | ⟨he, hm⟩ | ⟨he, hm⟩ | ⟨he, hm⟩ <;>
      (subst hm; subst hv; simp [he, pyFloat?_decLit hds])
  · rw [decLit_upStr hdl, hl]
    have hcl_mem : cl ∈ stripCommas s := by
      rw [eq_dropLast_concat hl]; simp
    have hne := digit_or_dot_ne_suffix (decLit_chars hdl cl hcl_mem)
    simp [hne.1, hne.2.1, hne.2.2.1, hne.2.2.2.1, hne.2.2.2.2,
      pyFloat?_decLit hdl, hv]

theorem gambling_refines {s : Str} {v : ℚ} (h : specParse s = some v) :
    gamblingParseAmountE s = some v := by
  unfold gamblingParseAmountE
  rw [strip_up_comm h]
  rcases specParse_elim h with ⟨ds, cl, m, ht, hds, hsm, hv⟩ | ⟨hdl, hv, cl, hl, hsm⟩
  · rw [ht]
    have hup : upStr (ds ++ [cl]) = ds ++ [upChar cl] := by
      unfold upStr
      rw [List.map_append]
      rw [show (ds.map upChar) = ds from decLit_upStr hds]
      rfl
    rw [hup, List.getLast?_concat, List.dropLast_concat]
    rcases specSuffixMult_cases hsm with ⟨he, hm⟩ | ⟨he, hm⟩ | ⟨he, hm⟩ | ⟨he, hm⟩ <;>
      (subst hm; subst hv; simp [he, pyFloat?_decLit hds])
  · rw [decLit_upStr hdl, hl]
    have hcl_mem : cl ∈ stripCommas s := by
      rw [eq_dropLast_concat hl]; simp
    have hne := digit_or_dot_ne_suffix (decLit_chars hdl cl hcl_mem)
    simp [hne.1, hne.2.1, hne.2.2.1, hne.2.2.2.1,
      pyFloat?_decLit hdl, hv]

theorem modal_refines {s : Str} {v : ℚ} (h : specParse s = some v)
    (hc : ',' ∉ s) : modalParseAmountE s = some v := by
  have hcs : stripCommas s = s :=
    filter_eq_self_of (fun c hcm => by
      simp only [decide_eq_true_iff]
      intro he; subst he; exact hc hcm)
  have hstrip : pyStrip s = s := pyStrip_eq_self (specParse_nospace h)
  unfold modalParseAmountE
  rw [hstrip, show upStr s = stripCommas (upStr s) by
    rw [strip_up_comm h, hcs]]
  rw [strip_up_comm h]
  rcases specParse_elim h with ⟨ds, cl, m, ht, hds, hsm, hv⟩ | ⟨hdl, hv, cl, hl, hsm⟩
  · rw [ht]
    have hup : upStr (ds ++ [cl]) = ds ++ [upChar cl] := by
      unfold upStr
      rw [List.map_append]
      rw [show (ds.map upChar) = ds from decLit_upStr hds]
      rfl
    rw [hup, List.getLast?_concat, List.dropLast_concat]
    rcases specSuffixMult_cases hsm with ⟨he, hm⟩ | ⟨he, hm⟩ | ⟨he, hm⟩ | ⟨he, hm⟩ <;>
      (subst hm; subst hv; simp [he, pyFloat?_decLit hds])
  · rw [decLit_upStr hdl, hl]
    have hcl_mem : cl ∈ stripCommas s := by
      rw [eq_dropLast_concat hl]; simp
    have hne := digit_or_dot_ne_suffix (decLit_chars hdl cl hcl_mem)
    simp [hne.1, hne.2.1, hne.2.2.1, hne.2.2.2.1,
      pyFloat?_decLit hdl, hv]


/-! ## Claims C2 and C3 -/

/-- Claim C2 (amended).  For every valid amount string (a decimal numeral with
optional thousands separators and an optional case-insensitive K/M/B/T suffix,
as captured by `specParse`), the dedicated amount parsers `parse_amount`
(bot.py), `_parse_amount` (bot.py) and `GamblingCog.parse_amount`
(gambling.py) strip commas and multiply the numeric prefix by
10^3/10^6/10^9/10^12 for suffix K/M/B/T, and parse suffix-free strings as
plain decimals; in particular parse("1.5B") = 1500000000 and
parse("10,000") = 10000.  The inline parser of the wager modal applies the
same suffix rule but does not strip thousands separators, so it agrees only
on comma-free strings and rejects "10,000". -/
theorem c2_amount_parsing :
    (∀ (s : Str) (v : ℚ), specParse s = some v →
      parse_amount s = some v ∧ botMethodParseAmount s = some v ∧
      gamblingParseAmountE s = some v ∧ gamblingParseAmount s = v ∧
      (',' ∉ s → modalParseAmountE s = some v)) ∧
    specParse "1.5B".data = some 1500000000 ∧
    specParse "10,000".data = some 10000 ∧
    modalParseAmountE "10,000".data = none := by
  refine ⟨fun s v h => ⟨parse_amount_refines h, botMethod_refines h,
      gambling_refines h, ?_, fun hc => modal_refines h hc⟩, ?_, ?_, by decide⟩
  · unfold gamblingParseAmount
    rw [gambling_refines h]
    rfl
  · have h : specParse "1.5B".data = some (decVal "1.5".data * 1000000000) := rfl
    rw [h, decVal_eq "1.5".data 15 1 (by decide) (by decide)]
    norm_num
  · have h : specParse "10,000".data = some (decVal "10000".data) := rfl
    rw [h, decVal_eq "10000".data 10000 0 (by decide) (by decide)]
    norm_num

/-- Witness for C2: the theorem applied at the concrete inputs "1.5B" and
"10,000". -/
theorem c2_amount_parsing_witness :
    parse_amount "1.5B".data = some 1500000000 ∧
    parse_amount "10,000".data = some 10000 ∧
    modalParseAmountE "1.5B".data = some 1500000000 := by
  have h := c2_amount_parsing
  exact ⟨(h.1 _ _ h.2.1).1, (h.1 _ _ h.2.2.1).1,
    (h.1 _ _ h.2.1).2.2.2.2 (by decide)⟩

/-- Claim C2, as frozen, is false: "10,000" is a valid amount string
(parse_amount accepts it as 10000), yet the wager modal's amount parser —
an amount parser in the program — rejects it instead of stripping the
thousands separator. -/
theorem c2_counterexample :
    modalParseAmountE "10,000".data = none ∧
    parse_amount "10,000".data = some 10000 := by
  constructor
  · decide
  · have h : parse_amount "10,000".data = some (decVal "10000".data) := rfl
    rw [h, decVal_eq "10000".data 10000 0 (by decide) (by decide)]
    norm_num

/-- Claim C3, as frozen, is false: "ABC" fails to parse (the `try` body of
`GamblingCog.parse_amount` raises, modelled by `none`), yet the parser
returns the value 0. -/
theorem c3_counterexample :
    gamblingParseAmountE "ABC".data = none ∧ gamblingParseAmount "ABC".data = 0 :=
  ⟨by decide, rfl⟩

/-- Claim C3 (amended).  Malformed amount strings are rejected explicitly by
`parse_amount` and `_parse_amount` in bot.py (both return None) and by the
wager modal (a raised ValueError answered with the invalid-amount message),
but `GamblingCog.parse_amount` — used by the payment-crediting path — returns
the silent value 0.0 on parse failure, indistinguishable from parsing "0". -/
theorem c3_parse_failure_behavior :
    parse_amount "ABC".data = none ∧
    botMethodParseAmount "ABC".data = none ∧
    modalParseAmountE "ABC".data = none ∧
    gamblingParseAmountE "ABC".data = none ∧
    gamblingParseAmount "ABC".data = 0 ∧
    gamblingParseAmount "0".data = 0 := by
  refine ⟨by decide, by decide, by decide, by decide, rfl, ?_⟩
  have h : gamblingParseAmount "0".data = decVal "0".data := rfl
  rw [h, decVal_eq "0".data 0 0 (by decide) (by decide)]
  norm_num

/-! ## Lemmas about the store operations -/

theorem lookup_map_set {users : List (ℕ × UserData)} {i : ℕ} (d : UserData)
    (h : users.any (fun p => decide (p.1 = i)) = true) :
    lookupUser (users.map (fun p => if p.1 = i then (i, d) else p)) i = some d := by
  induction users with
  | nil => simp at h
  | cons p rest ih =>
      by_cases hp : p.1 = i
      · simp [lookupUser, List.find?_cons, hp]
      · have hrest : rest.any (fun p => decide (p.1 = i)) = true := by
          simpa [List.any_cons, hp] using h
        simpa [lookupUser, List.find?_cons, hp] using ih hrest

theorem lookup_append_single {users : List (ℕ × UserData)} {i : ℕ} (d : UserData)
    (h : users.any (fun p => decide (p.1 = i)) = false) :
    lookupUser (users ++ [(i, d)]) i = some d := by
  induction users with
  | nil => simp [lookupUser, List.find?_cons]
  | cons p rest ih =>
      have hall := List.any_eq_false.mp h
      have hp : ¬ p.1 = i := by
        have := hall p (List.mem_cons_self p rest)
        simpa using this
      have hrest : rest.any (fun q => decide (q.1 = i)) = false :=
        List.any_eq_false.mpr (fun x hx => hall x (List.mem_cons_of_mem p hx))
      simpa [lookupUser, List.find?_cons, hp] using ih hrest

theorem lookup_setVerified (users : List (ℕ × UserData)) (i : ℕ) (d : UserData) :
    lookupUser (setVerified users i d) i = some d := by
  unfold setVerified
  by_cases h : users.any (fun p => decide (p.1 = i)) = true
  · rw [if_pos h]; exact lookup_map_set d h
  · rw [if_neg h]
    exact lookup_append_single d (Bool.eq_false_iff.mpr h)

theorem mem_removePending {pend : List (ℕ × PendingData)} {i : ℕ} :
    ∀ p ∈ removePending pend i, p.1 ≠ i := by
  intro p hp
  have := (List.mem_filter.mp hp).2
  simpa using this

theorem creditFirst_no_match {users : List (ℕ × UserData)} {payer : Str} (amt : ℚ)
    (h : ∀ p ∈ users, p.2.minecraft_username ≠ payer) :
    creditFirst users payer amt = (users, false) := by
  induction users with
  | nil => rfl
  | cons p rest ih =>
      have hp : ¬ p.2.minecraft_username = payer := h p (List.mem_cons_self p rest)
      simp only [creditFirst, if_neg hp,
        ih (fun x hx => h x (List.mem_cons_of_mem p hx))]

theorem lookup_updateBalance {users : List (ℕ × UserData)} {i : ℕ} {u : UserData}
    (δ : ℚ) (h : lookupUser users i = some u) :
    lookupUser (updateBalance users i δ) i = some { u with balance := u.balance + δ } := by
  induction users with
  | nil => simp [lookupUser, List.find?] at h
  | cons p rest ih =>
      by_cases hp : p.1 = i
      · have hu : p.2 = u := by
          simpa [lookupUser, List.find?_cons, hp] using h
        subst hu
        simp [lookupUser, updateBalance, List.find?_cons, hp]
      · have hrest : lookupUser rest i = some u := by
          simpa [lookupUser, List.find?_cons, hp] using h
        simpa [lookupUser, updateBalance, List.find?_cons, hp] using ih hrest

/-! ## Claim C5 -/

/-- Claim C5.  When a chat line matches the verification whisper pattern with
sender `u` and the pending-verification lookup finds an entry for `u` (under
discord id `i`), processing the line installs a verified user for `i` with
game username `u`, balance exactly 0 and cleared pending flag, deletes every
pending entry under `i`, and flushes the store to the durable file. -/
theorem c5_verification_promotion (st : PersistState) (line : Str) (u : Str) (i : ℕ)
    (hw : whisperSender? line = some u)
    (hp : promoteFirst st.store.pending_verifications u = some i) :
    lookupUser (processVerificationLine st line).store.verified_users i =
      some ⟨u, 0, false⟩ ∧
    (∀ p ∈ (processVerificationLine st line).store.pending_verifications, p.1 ≠ i) ∧
    (processVerificationLine st line).persisted = (processVerificationLine st line).store := by
  simp only [processVerificationLine, hw, hp]
  exact ⟨lookup_setVerified _ _ _, fun p hpm => mem_removePending p hpm, rfl⟩

/-- Witness for C5: Alice's pending verification (id 7) is promoted by the
whisper line, with balance 0, pending entry removed, store persisted. -/
theorem c5_verification_promotion_witness :
    lookupUser (processVerificationLine c5State verifyLine).store.verified_users 7 =
      some ⟨"Alice".data, 0, false⟩ ∧
    (∀ p ∈ (processVerificationLine c5State verifyLine).store.pending_verifications,
      p.1 ≠ 7) ∧
    (processVerificationLine c5State verifyLine).persisted =
      (processVerificationLine c5State verifyLine).store :=
  c5_verification_promotion c5State verifyLine "Alice".data 7 (by decide) (by decide)

/-! ## Claim C6 -/

/-- Claim C6.  A payment log line whose payer has no verified-user entry with
a matching game username leaves the state (store and durable file) entirely
unchanged: no balance change, no new entry, no crash — the event is dropped. -/
theorem c6_unmatched_payment_dropped (st : PersistState) (line : Str)
    (payer amtStr : Str)
    (hm : paymentMatch? line = some (payer, amtStr))
    (h : ∀ p ∈ st.store.verified_users, p.2.minecraft_username ≠ payer) :
    processPaymentLine st line = st := by
  simp only [processPaymentLine, hm]
  rw [creditFirst_no_match _ h]
  rfl

/-- Witness for C6: a payment from Alice while only Bob is verified changes
nothing. -/
theorem c6_unmatched_payment_dropped_witness :
    processPaymentLine c6State "Alice paid you $5".data = c6State :=
  c6_unmatched_payment_dropped c6State "Alice paid you $5".data
    "Alice".data "5".data (by decide) (by decide)


/-! ## Claim C4 -/

/-- Claim C4, evaluated at the failing input.  The code tracks no consumed
offset: each tick of `check_minecraft_chat` re-reads the last 50 log lines.
A payment line that stays within the window is therefore matched again on
the next tick: starting from balance 0, one tick over the single-line log
credits Alice 5, and a second tick over the same log credits her again,
leaving 10 — the same physical line has mutated the balance twice. -/
theorem c4_window_rescan_double_credits :
    ((lookupUser (check_minecraft_chat c4State c4Log).store.verified_users 1).map
      (fun u => u.balance)) = some 5 ∧
    ((lookupUser (check_minecraft_chat
        (check_minecraft_chat c4State c4Log) c4Log).store.verified_users 1).map
      (fun u => u.balance)) = some 10 := by
  have h1 : ((lookupUser (check_minecraft_chat c4State c4Log).store.verified_users 1).map
      (fun u => u.balance)) = some ((0 : ℚ) + decVal "5".data) := rfl
  have h2 : ((lookupUser (check_minecraft_chat
        (check_minecraft_chat c4State c4Log) c4Log).store.verified_users 1).map
      (fun u => u.balance)) = some ((0 : ℚ) + decVal "5".data + decVal "5".data) := rfl
  rw [h1, h2, decVal_eq "5".data 5 0 (by decide) (by decide)]
  norm_num

/-! ## Claim C7 -/

theorem processPaymentLine_save_disj (st : PersistState) (line : Str) :
    processPaymentLine st line = st ∨
    (processPaymentLine st line).persisted = (processPaymentLine st line).store := by
  simp only [processPaymentLine]
  split
  · exact Or.inl rfl
  · split
    · exact Or.inr rfl
    · exact Or.inl rfl

theorem processVerificationLine_save_disj (st : PersistState) (line : Str) :
    processVerificationLine st line = st ∨
    (processVerificationLine st line).persisted = (processVerificationLine st line).store := by
  unfold processVerificationLine
  split
  · exact Or.inl rfl
  · split
    · exact Or.inl rfl
    · exact Or.inr rfl

/-- Folding a step that either leaves the state unchanged or ends in a save
yields a state that is unchanged or in sync with the durable file. -/
theorem foldl_save_disj (step : PersistState → Str → PersistState)
    (hstep : ∀ st l, step st l = st ∨ (step st l).persisted = (step st l).store) :
    ∀ (lines : List Str) (st : PersistState),
      lines.foldl step st = st ∨
      (lines.foldl step st).persisted = (lines.foldl step st).store := by
  intro lines
  induction lines with
  | nil => intro st; exact Or.inl rfl
  | cons l ls ih =>
      intro st
      rcases hstep st l with he | hp
      · rw [List.foldl_cons, he]
        exact ih st
      · rcases ih (step st l) with he2 | hp2
        · rw [List.foldl_cons, he2]
          exact Or.inr hp
        · rw [List.foldl_cons]
          exact Or.inr hp2

theorem tick_save_disj (st : PersistState) (log : List Str) :
    check_minecraft_chat st log = st ∨
    (check_minecraft_chat st log).persisted = (check_minecraft_chat st log).store := by
  unfold check_minecraft_chat check_payment_notifications check_verification_messages
  rcases foldl_save_disj processPaymentLine processPaymentLine_save_disj (lastN 50 log) st
    with h1 | h1
  · rw [h1]
    exact foldl_save_disj processVerificationLine processVerificationLine_save_disj _ st
  · rcases foldl_save_disj processVerificationLine processVerificationLine_save_disj
      (lastN 20 log) ((lastN 50 log).foldl processPaymentLine st) with h2 | h2
    · rw [h2]
      exact Or.inr h1
    · exact Or.inr h2

theorem gambleOnSubmit_save_disj (st : PersistState) (i : ℕ) (input : Str) (draw : ℚ) :
    (gambleOnSubmit st i input draw).1 = st ∨
    (gambleOnSubmit st i input draw).1.persisted = (gambleOnSubmit st i input draw).1.store := by
  simp only [gambleOnSubmit]
  split
  · exact Or.inl rfl
  · split_ifs
    · exact Or.inl rfl
    · exact Or.inl rfl
    · exact Or.inr rfl
    · exact Or.inr rfl

/-- Claim C7.  Every mutating operation on the ledger/verification store is
immediately followed by a full-store flush to the durable file: registering
a pending verification always ends in a flush; and whenever a wager
submission or a chat-scan tick (payment credit or verification promotion)
changes the store, the resulting durable file equals the resulting store —
no settled mutation waits for the periodic snapshot job. -/
theorem c7_write_through_flush :
    (∀ (st : PersistState) (i : ℕ) (u : Str) (ts : ℚ),
      (registerPending st i u ts).persisted = (registerPending st i u ts).store) ∧
    (∀ (st : PersistState) (i : ℕ) (input : Str) (draw : ℚ),
      (gambleOnSubmit st i input draw).1.store ≠ st.store →
      (gambleOnSubmit st i input draw).1.persisted = (gambleOnSubmit st i input draw).1.store) ∧
    (∀ (st : PersistState) (log : List Str),
      (check_minecraft_chat st log).store ≠ st.store →
      (check_minecraft_chat st log).persisted = (check_minecraft_chat st log).store) := by
  refine ⟨fun st i u ts => rfl, fun st i input draw h => ?_, fun st log h => ?_⟩
  · rcases gambleOnSubmit_save_disj st i input draw with he | hp
    · exact absurd (congrArg PersistState.store he) h
    · exact hp
  · rcases tick_save_disj st log with he | hp
    · exact absurd (congrArg PersistState.store he) h
    · exact hp

/-- Witness for C7: the chat-scan tick over Alice's payment line changes the
store (her balance becomes 5), and the resulting durable file equals the
resulting store. -/
theorem c7_write_through_flush_witness :
    (check_minecraft_chat c4State c4Log).persisted =
      (check_minecraft_chat c4State c4Log).store := by
  refine c7_write_through_flush.2.2 c4State c4Log ?_
  intro heq
  have hb := congrArg
    (fun s : Store => (lookupUser s.verified_users 1).map (fun u => u.balance)) heq
  have h1 : (fun s : Store => (lookupUser s.verified_users 1).map (fun u => u.balance))
      (check_minecraft_chat c4State c4Log).store = some ((0 : ℚ) + decVal "5".data) := rfl
  have h2 : (fun s : Store => (lookupUser s.verified_users 1).map (fun u => u.balance))
      c4State.store = some (0 : ℚ) := rfl
  rw [h1, h2, decVal_eq "5".data 5 0 (by decide) (by decide)] at hb
  norm_num at hb

/-! ## Claim C9 -/

/-- Claim C9.  For a verified user with enough balance and a positive parsed
bet, the wager presented as "50/50" resolves with the draw compared against
0.1, not 0.5: the user wins iff the random draw is below 1/10; on a win the
balance is credited by the bet amount and on a loss it is debited by the bet
amount, and the store is flushed. -/
theorem c9_wager_resolution (st : PersistState) (i : ℕ) (input : Str) (draw : ℚ)
    (u : UserData) (a : ℚ)
    (hu : lookupUser st.store.verified_users i = some u)
    (hp : modalParseAmountE input = some a)
    (hpos : 0 < a) (hbal : a ≤ u.balance) :
    (gambleOnSubmit st i input draw).2 = GambleOutcome.resolved (decide (draw < 1 / 10)) ∧
    lookupUser (gambleOnSubmit st i input draw).1.store.verified_users i =
      some { u with balance := if draw < 1 / 10 then u.balance + a else u.balance - a } ∧
    (gambleOnSubmit st i input draw).1.persisted = (gambleOnSubmit st i input draw).1.store := by
  have hbal0 : ((lookupUser st.store.verified_users i).map (fun u => u.balance)).getD 0
      = u.balance := by rw [hu]; rfl
  simp only [gambleOnSubmit, hp, hbal0]
  rw [if_neg (not_le.mpr hpos), if_neg (not_lt.mpr hbal)]
  refine ⟨rfl, ?_, rfl⟩
  show lookupUser (updateBalance st.store.verified_users i
      (if (decide (draw < 1 / 10)) = true then a else -a)) i =
    some { u with balance := if draw < 1 / 10 then u.balance + a else u.balance - a }
  rw [lookup_updateBalance (if (decide (draw < 1 / 10)) = true then a else -a) hu]
  by_cases hd : draw < 1 / 10
  · rw [if_pos (decide_eq_true hd), if_pos hd]
  · rw [if_neg (fun hc => hd (of_decide_eq_true hc)), if_neg hd, sub_eq_add_neg]

/-- Witness for C9: Alice (balance 10) bets 4 with draw 3/10 — below the
advertised even-odds threshold 1/2 but above 1/10 — so she loses and her
balance drops to 6. -/
theorem c9_wager_resolution_witness :
    (gambleOnSubmit c9State 1 "4".data (3 / 10)).2 = GambleOutcome.resolved false ∧
    lookupUser (gambleOnSubmit c9State 1 "4".data (3 / 10)).1.store.verified_users 1 =
      some ⟨"Alice".data, 6, false⟩ := by
  have hnd : ¬ ((3 : ℚ) / 10 < 1 / 10) := by norm_num
  have hp : modalParseAmountE "4".data = some 4 := by
    have h : modalParseAmountE "4".data = some (decVal "4".data) := rfl
    rw [h, decVal_eq "4".data 4 0 (by decide) (by decide)]
    norm_num
  have h := c9_wager_resolution c9State 1 "4".data (3 / 10)
    ⟨"Alice".data, 10, false⟩ 4 rfl hp (by norm_num) (by norm_num)
  refine ⟨?_, ?_⟩
  · rw [h.1, decide_eq_false hnd]
  · rw [h.2.1, if_neg hnd]
    norm_num

/-! ## Claim C10 -/

/-- Claim C10.  Every wager submission rejected before resolution — parse
failure, non-positive parsed amount, or amount exceeding the current
balance — leaves the state (store and durable file) exactly unchanged: no
mutation and no flush happens on a rejection path. -/
theorem c10_wager_rejection_no_mutation (st : PersistState) (i : ℕ) (input : Str)
    (draw : ℚ)
    (h : modalParseAmountE input = none ∨
      ∃ a, modalParseAmountE input = some a ∧
        (a ≤ 0 ∨ a > ((lookupUser st.store.verified_users i).map
          (fun u => u.balance)).getD 0)) :
    (gambleOnSubmit st i input draw).1 = st := by
  simp only [gambleOnSubmit]
  rcases h with hn | ⟨a, ha, hcase⟩
  · simp [hn]
  · simp only [ha]
    split_ifs with hle hgt hwon
    · rfl
    · rfl
    · rcases hcase with h1 | h2
      · exact absurd h1 hle
      · exact absurd h2 hgt
    · rcases hcase with h1 | h2
      · exact absurd h1 hle
      · exact absurd h2 hgt

/-- Witness for C10: the malformed bet "ABC" is rejected and Alice's state is
untouched. -/
theorem c10_wager_rejection_no_mutation_witness :
    (gambleOnSubmit c9State 1 "ABC".data (1 / 2)).1 = c9State :=
  c10_wager_rejection_no_mutation c9State 1 "ABC".data (1 / 2) (Or.inl (by decide))

/-! ## Claim C1 -/

/-- Claim C1, evaluated at the failing input.  When the old client exits
within the grace period, reconnecting does leave exactly one live process.
But the connect paths have no force-kill escalation (`terminate(); wait(5)`
inside a bare `except: pass`, unlike the disconnect path's `kill()`): when
the existing live client ignores the graceful signal, `/afk connect` reports
success while leaving TWO live processes for the account — and likewise a
main-account disconnect/reconnect around a signal-ignoring client. -/
theorem c1_connect_leaves_two_live_processes :
    liveProcsFor (connect_afk c1CompliantState "Alice".data false false).1 "Alice".data = 1 ∧
    liveProcsFor c1StubbornState "Alice".data = 1 ∧
    (connect_afk c1StubbornState "Alice".data false false).2 = true ∧
    liveProcsFor (connect_afk c1StubbornState "Alice".data false false).1 "Alice".data = 2 ∧
    liveProcsFor (connect_main (disconnect_main c1MainState).1 false false).1
      "MainAcc".data = 2 := by decide

/-! ## Claim C8 -/

theorem lookupKey_of_not_mem {α : Type} {l : List (Str × α)} {k : Str}
    (h : ∀ p ∈ l, p.1 ≠ k) : lookupKey l k = none := by
  unfold lookupKey
  rw [List.find?_eq_none.mpr (fun p hp => by simp [h p hp])]
  rfl

theorem mem_removeKey {α : Type} {l : List (Str × α)} {k : Str} :
    ∀ p ∈ removeKey l k, p.1 ≠ k := by
  intro p hp
  have := (List.mem_filter.mp hp).2
  simpa using this

theorem connect_afk_files (st : BotState) (u : Str) (ig di : Bool) :
    (connect_afk st u ig di).1.files = st.files := by
  simp only [connect_afk]
  split <;> rfl

/-- Claim C8 (amended).  Disconnecting a connected secondary (AFK) account
deletes its command file and its account-scoped status file, and a
subsequent reconnect (which never writes the command file) still observes no
command file: no stale command survives the disconnect/reconnect cycle.  The
main account's disconnect, by contrast, deletes nothing (see the
counterexample). -/
theorem c8_afk_disconnect_cleanup (st : BotState) (u : Str) (j : ℕ)
    (hmain : isMainAccount st u = false)
    (hconn : lookupKey st.afk_processes u = some j) :
    (disconnect_afk st u).2 = true ∧
    readFile? (disconnect_afk st u).1.files (commandFilePath u) = none ∧
    readFile? (disconnect_afk st u).1.files (statusFilePath u) = none ∧
    (∀ ig di, readFile? (connect_afk (disconnect_afk st u).1 u ig di).1.files
      (commandFilePath u) = none) := by
  have hcmd : readFile? (disconnect_afk st u).1.files (commandFilePath u) = none := by
    simp only [disconnect_afk, Bool.not_eq_true, hmain, if_neg, hconn]
    exact lookupKey_of_not_mem
      (fun p hp => mem_removeKey p (List.mem_of_mem_filter hp))
  refine ⟨?_, hcmd, ?_, ?_⟩
  · simp [disconnect_afk, hmain, hconn]
  · simp only [disconnect_afk, Bool.not_eq_true, hmain, if_neg, hconn]
    exact lookupKey_of_not_mem (fun p hp => mem_removeKey p hp)
  · intro ig di
    rw [readFile?, show (connect_afk (disconnect_afk st u).1 u ig di).1.files
      = (disconnect_afk st u).1.files from connect_afk_files _ u ig di]
    exact hcmd

/-- Witness for C8: disconnecting Alice's connected AFK account removes both
of her files, and a reconnect still sees no command file. -/
theorem c8_afk_disconnect_cleanup_witness :
    (disconnect_afk c8AfkState "Alice".data).2 = true ∧
    readFile? (disconnect_afk c8AfkState "Alice".data).1.files
      (commandFilePath "Alice".data) = none ∧
    readFile? (disconnect_afk c8AfkState "Alice".data).1.files
      (statusFilePath "Alice".data) = none ∧
    (∀ ig di, readFile? (connect_afk (disconnect_afk c8AfkState "Alice".data).1
      "Alice".data ig di).1.files (commandFilePath "Alice".data) = none) :=
  c8_afk_disconnect_cleanup c8AfkState "Alice".data 0 (by decide) (by decide)

/-- Claim C8, as frozen, is false for the main account: `_disconnect_minecraft`
terminates the client but deletes no file, so the stale command written
before the disconnect is still observable in the command file after a
successful disconnect. -/
theorem c8_counterexample :
    (disconnect_main c8MainState).2 = true ∧
    readFile? (disconnect_main c8MainState).1.files mainCommandFile =
      some "/pay Bob 5".data := by decide


end DonutBot
